import Mathlib

/-!
Verification of the kaolinite text-buffer engine (Rust) against its
natural-language specification.  The Rust sources (`src/row.rs`,
`src/document.rs`, `src/event.rs`, `src/utils.rs`) are shallowly embedded
below: vectors become lists, `usize` becomes `Nat`, fallible calls return
`Except Error _`, and operations that can panic (out-of-bounds indexing,
arithmetic underflow in debug builds) return `Option _` with `none`
standing for a panic.
-/

namespace Kaolinite

/-- Error enum from `event.rs` (the `FileError` payload is irrelevant here,
    no embedded operation produces it). -/
inductive Error where
  | OutOfRange
  | NoFileName
  deriving DecidableEq, Repr

/-- Status enum from `event.rs`. -/
inductive Status where
  | EndOfRow
  | StartOfRow
  | EndOfDocument
  | StartOfDocument
  | None
  deriving DecidableEq, Repr

/-- Display width of a single character, modelling the `unicode-width`
    crate's `UnicodeWidthChar::width(c).unwrap_or(0)` as used by
    `utils::width_char`: control characters have no width (`None`, hence 0
    after `unwrap_or`), the East-Asian Wide / Fullwidth ranges are width 2,
    everything else width 1.  (Zero-width combining-mark ranges are not
    modelled; no claim below depends on them.) -/
def charWidth (c : Char) : Nat :=
  let n := c.toNat
  if n < 0x20 then 0
  else if n < 0x7f then 1
  else if n < 0xa0 then 0
  else if (0x1100 ≤ n ∧ n ≤ 0x115f) ∨ (0x2329 ≤ n ∧ n ≤ 0x232a)
        ∨ (0x2e80 ≤ n ∧ n ≤ 0x303e) ∨ (0x3041 ≤ n ∧ n ≤ 0x33ff)
        ∨ (0x3400 ≤ n ∧ n ≤ 0x4dbf) ∨ (0x4e00 ≤ n ∧ n ≤ 0x9fff)
        ∨ (0xa000 ≤ n ∧ n ≤ 0xa4cf) ∨ (0xa960 ≤ n ∧ n ≤ 0xa97f)
        ∨ (0xac00 ≤ n ∧ n ≤ 0xd7a3) ∨ (0xf900 ≤ n ∧ n ≤ 0xfaff)
        ∨ (0xfe10 ≤ n ∧ n ≤ 0xfe19) ∨ (0xfe30 ≤ n ∧ n ≤ 0xfe6f)
        ∨ (0xff00 ≤ n ∧ n ≤ 0xff60) ∨ (0xffe0 ≤ n ∧ n ≤ 0xffe6)
        ∨ (0x20000 ≤ n ∧ n ≤ 0x3fffd) then 2
  else 1

/-- `utils::width_char`: a tab renders as `tab` columns, otherwise the
    Unicode display width. -/
def width_char (c : Char) (tab : Nat) : Nat :=
  if c = '\t' then tab else charWidth c

/-- Running-sum helper: the `scan` in `Row::raw_to_indices` emitting the
    accumulator after each element. -/
def scanSum (a : Nat) : List Nat → List Nat
  | [] => []
  | x :: xs => (a + x) :: scanSum (a + x) xs

/-- A `Row` from `row.rs`.  The raw pointer `info: *mut FileInfo` is
    modelled by the tab width it dereferences to (`Row::get_tab_width`,
    which yields 4 for a null pointer). -/
structure Row where
  text : List Char
  indices : List Nat
  modified : Bool
  tab_width : Nat
  deriving DecidableEq, Repr

namespace Row

/-- `Row::raw_to_indices`: prepend a NUL sentinel (width 0), map each
    character to its tab-aware width, and emit running sums, giving the
    cumulative-width table with `len(text)+1` entries starting at 0. -/
def raw_to_indices (text : List Char) (tab_width : Nat) : List Nat :=
  scanSum 0 ((Char.ofNat 0 :: text).map (fun c => width_char c tab_width))

/-- `Row::new` (always built with tab width 4; `link` adjusts it). -/
def new (raw : List Char) : Row :=
  { text := raw
    indices := raw_to_indices raw 4
    modified := false
    tab_width := 4 }

/-- `Row::link`: record the document's tab width and recompute the index
    table when it differs from the default 4. -/
def link (r : Row) (tab : Nat) : Row :=
  if tab ≠ 4 then
    { r with tab_width := tab, indices := raw_to_indices r.text tab }
  else
    { r with tab_width := tab }

/-- `Row::len`. -/
def len (r : Row) : Nat := r.text.length

/-- `Row::width`: `indices.last().unwrap_or(&0)`. -/
def width (r : Row) : Nat := r.indices.getLast?.getD 0

/-- `Row::insert`.  Returns `Err(OutOfRange)` when `start` exceeds the
    display width; otherwise `Vec::splice(start..start, text)` panics
    (`none`) when `start` exceeds the character count, else the characters
    are spliced in and the index table fully recomputed. -/
def insert (r : Row) (start : Nat) (s : List Char) : Option (Except Error Row) :=
  if start > r.width then some (Except.error Error.OutOfRange)
  else if start ≤ r.text.length then
    let text := r.text.take start ++ s ++ r.text.drop start
    some (Except.ok
      { text := text
        indices := raw_to_indices text r.tab_width
        modified := true
        tab_width := r.tab_width })
  else none

/-- `Row::remove` on the bounds `(start, end)` extracted from the range by
    `BoundedRange` (`a..b ↦ (a, b)`, `a..=b ↦ (a, b+1)`).  Returns
    `Err(OutOfRange)` when `start` exceeds the display width; the
    subsequent `indices[end]`, `indices[start]` and the two `splice` calls
    panic (`none`) unless `start ≤ end ≤ len`.  Otherwise the removed
    span's width is subtracted from every surviving entry from position
    `start` on.  (Rust's `usize` subtractions here can only underflow on a
    row whose index table is not monotone, which the invariant excludes;
    `Nat` subtraction truncates instead.) -/
def remove (r : Row) (start «end» : Nat) : Option (Except Error Row) :=
  if start > r.width then some (Except.error Error.OutOfRange)
  else if start ≤ «end» ∧ «end» ≤ r.text.length then
    let shift := r.indices.getD «end» 0 - r.indices.getD start 0
    some (Except.ok
      { text := r.text.take start ++ r.text.drop «end»
        indices := r.indices.take start ++ (r.indices.drop «end»).map (fun i => i - shift)
        modified := true
        tab_width := r.tab_width })
  else none

/-- `Row::split`: `text.get(..idx)` / `indices.get(..=idx)` give
    `Err(OutOfRange)` when `idx` exceeds the respective length; the left
    row keeps the first `idx` characters (index entries `0..=idx`), the
    right row keeps the rest with its index table shifted down by its
    first entry. -/
def split (r : Row) (idx : Nat) : Except Error (Row × Row) :=
  if idx > r.text.length then Except.error Error.OutOfRange
  else if idx + 1 > r.indices.length then Except.error Error.OutOfRange
  else
    let rightIndices := r.indices.drop idx
    let shift := rightIndices.head?.getD 0
    Except.ok
      ({ text := r.text.take idx
         indices := r.indices.take (idx + 1)
         modified := true
         tab_width := r.tab_width },
       { text := r.text.drop idx
         indices := rightIndices.map (fun i => i - shift)
         modified := false
         tab_width := r.tab_width })

/-- `Row::splice`: drop the first entry of `other`'s index table
    (`Vec::remove(0)` panics, `none`, when it is empty), shift the rest up
    by `self`'s total width, and concatenate.  The result carries `self`'s
    file-info link. -/
def splice (r other : Row) : Option Row :=
  let shift := r.indices.getLast?.getD 0
  match other.indices with
  | [] => none
  | _ :: rest =>
    some
      { text := r.text ++ other.text
        indices := r.indices ++ rest.map (fun i => i + shift)
        modified := true
        tab_width := r.tab_width }

/-- `Row::get_char_ptr`: clamp to `len` at or beyond the total width, else
    the position of the first index-table entry equal to `x`, defaulting
    to 0 (`position(..).unwrap_or(0)`). -/
def get_char_ptr (r : Row) (x : Nat) : Nat :=
  if x ≥ r.width then r.text.length
  else (r.indices.findIdx? (fun i => x = i)).getD 0

/-- `Row::render_full`: every character appended in order, tabs expanded
    to `tab_width` spaces. -/
def render_full (r : Row) : String :=
  r.text.foldl
    (fun a x =>
      a ++ (if x = '\t' then String.mk (List.replicate r.tab_width ' ') else String.mk [x]))
    ""

/-- `Row::render_raw`: the characters as-is. -/
def render_raw (r : Row) : String :=
  r.text.foldl (fun a x => a ++ String.mk [x]) ""

/-- The index-table invariant stated by the spec: `len(text)+1` entries,
    first entry 0, non-decreasing, and consecutive differences equal to
    the tab-aware display width of the corresponding character. -/
def Inv (r : Row) : Prop :=
  r.indices.length = r.text.length + 1 ∧
  r.indices.getD 0 0 = 0 ∧
  (∀ i, i < r.text.length → r.indices.getD i 0 ≤ r.indices.getD (i + 1) 0) ∧
  (∀ i, i < r.text.length →
    r.indices.getD (i + 1) 0 - r.indices.getD i 0
      = width_char (r.text.getD i (Char.ofNat 0)) r.tab_width)

instance (r : Row) : Decidable r.Inv := by
  unfold Inv
  infer_instance

end Row

/-- A position, `utils::Loc`. -/
structure Loc where
  x : Nat
  y : Nat
  deriving DecidableEq, Repr

/-- A viewport size, `utils::Size`. -/
structure Size where
  w : Nat
  h : Nat
  deriving DecidableEq, Repr

/-- `document::FileInfo` (the file name as a character list). -/
structure FileInfo where
  file : Option (List Char)
  is_dos : Bool
  tab_width : Nat
  deriving DecidableEq, Repr

/-- `document::Document`. -/
structure Document where
  info : FileInfo
  rows : List Row
  modified : Bool
  size : Size
  char_ptr : Nat
  cursor : Loc
  offset : Loc
  deriving DecidableEq, Repr

/-- Substring helper: does `needle` occur at the start of `hay`? -/
def startsWith : List Char → List Char → Bool
  | [], _ => true
  | _ :: _, [] => false
  | a :: as, b :: bs => a == b && startsWith as bs

/-- `str::contains(needle)` on character lists: some suffix of `hay`
    starts with `needle`. -/
def containsSub : List Char → List Char → Bool
  | [], needle => needle.isEmpty
  | h :: t, needle => startsWith needle (h :: t) || containsSub t needle

/-- The replacement `regex!("(\\r\\n|\\n)$").replace(text, "")` performed by
    `Document::raw_to_rows`: strip one trailing CRLF, else one trailing LF. -/
def dropTrailingNewline (t : List Char) : List Char :=
  if 2 ≤ t.length ∧ t.drop (t.length - 2) = ['\r', '\n'] then t.take (t.length - 2)
  else if t.getLast? = some '\n' then t.take (t.length - 1)
  else t

/-- The split `regex!("(\\r\\n|\\n)").split(text)` performed by
    `Document::raw_to_rows`: cut at each CRLF or LF (leftmost alternative
    first, so CRLF is consumed as one separator). -/
def splitLines : List Char → List (List Char)
  | [] => [[]]
  | '\r' :: '\n' :: rest => [] :: splitLines rest
  | '\n' :: rest => [] :: splitLines rest
  | c :: rest =>
    match splitLines rest with
    | [] => [[c]]
    | l :: ls => (c :: l) :: ls

namespace Document

/-- `Document::new` (with `FileInfo::default`). -/
def new (size : Size) : Document :=
  { info := { file := none, is_dos := false, tab_width := 4 }
    rows := []
    modified := false
    size := size
    char_ptr := 0
    cursor := ⟨0, 0⟩
    offset := ⟨0, 0⟩ }

/-- `Document::raw_to_rows`: strip a final line ending, split on line
    endings, and build rows linked to the document's file info. -/
def raw_to_rows (tab : Nat) (text : List Char) : List Row :=
  (splitLines (dropTrailingNewline text)).map (fun s => (Row.new s).link tab)

/-- The pure core of `Document::open` once `fs::read_to_string` has
    produced `raw`: reset the file info — detecting DOS line endings with
    `raw.contains("\\r\\n")`, which in Rust is the literal four-character
    sequence backslash, `r`, backslash, `n` — reset the cursor state, and
    load the rows. -/
def openFrom (d : Document) (path raw : List Char) : Document :=
  let info : FileInfo :=
    { file := some path
      is_dos := containsSub raw ['\\', 'r', '\\', 'n']
      tab_width := d.info.tab_width }
  { d with
    info := info
    cursor := ⟨0, 0⟩
    offset := ⟨0, 0⟩
    char_ptr := 0
    modified := false
    rows := raw_to_rows info.tab_width raw }

/-- `Document::raw_loc`. -/
def raw_loc (d : Document) : Loc :=
  ⟨d.cursor.x + d.offset.x, d.cursor.y + d.offset.y⟩

/-- `Document::loc`. -/
def loc (d : Document) : Loc :=
  ⟨d.char_ptr, d.cursor.y + d.offset.y⟩

/-- `Document::row`: `rows.get(index).ok_or(Error::OutOfRange)`. -/
def row (d : Document) (index : Nat) : Except Error Row :=
  match d.rows[index]? with
  | some r => Except.ok r
  | none => Except.error Error.OutOfRange

/-- `Document::current_row`. -/
def current_row (d : Document) : Except Error Row :=
  d.row d.raw_loc.y

/-- `Document::get_width`: width of the character at `char_ptr + offset`.
    The `as usize` cast of a negative `i128` wraps to a huge index, so the
    `text[idx]` lookup panics (`none`) whenever the position is not a
    valid character index. -/
def get_width (d : Document) (offset : Int) : Option (Except Error Nat) :=
  match d.current_row with
  | Except.error e => some (Except.error e)
  | Except.ok r =>
    let idx := (d.char_ptr : Int) + offset
    if 0 ≤ idx ∧ idx.toNat < r.text.length then
      some (Except.ok (width_char (r.text.getD idx.toNat (Char.ofNat 0)) d.info.tab_width))
    else none

/-- `Document::goto_x` (returns the `Result` together with the mutated
    document; note `char_ptr` is written before the index-table lookup
    that can still fail). -/
def goto_x (d : Document) (x : Nat) : (Except Error Unit) × Document :=
  if d.char_ptr = x then (Except.ok (), d)
  else
    match d.current_row with
    | Except.error e => (Except.error e, d)
    | Except.ok r =>
      if x > r.text.length then (Except.error Error.OutOfRange, d)
      else
        let d1 := { d with char_ptr := x }
        match r.indices[x]? with
        | none => (Except.error Error.OutOfRange, d1)
        | some dx =>
          if dx < d.size.w then
            (Except.ok (),
             { d1 with offset := { d1.offset with x := 0 }, cursor := { d1.cursor with x := dx } })
          else if d.offset.x ≤ dx ∧ dx < d.offset.x + d.size.w then
            (Except.ok (), { d1 with cursor := { d1.cursor with x := dx - d1.offset.x } })
          else
            (Except.ok (),
             { d1 with cursor := { d1.cursor with x := 0 }, offset := { d1.offset with x := dx } })

end Document

/-- The grapheme-traversal loop shared by `move_left` and
    `snap_grapheme`: step the horizontal position left `n` times,
    decrementing `offset.x` when the cursor is at screen column 0, else
    `cursor.x`.  Decrementing `0` is a `usize` underflow (a panic in
    debug builds), modelled as `none`. -/
def moveLeftSteps : Nat → Loc → Loc → Option (Loc × Loc)
  | 0, c, o => some (c, o)
  | n + 1, c, o =>
    if c.x = 0 then
      if o.x = 0 then none
      else moveLeftSteps n c { o with x := o.x - 1 }
    else moveLeftSteps n { c with x := c.x - 1 } o

/-- The traversal loop of `move_right`: step right `n` times, incrementing
    `offset.x` when the cursor sits at the rightmost screen column
    `size.w - 1`.  Evaluating `size.w - 1` with `size.w = 0` is a `usize`
    underflow (a panic in debug builds), modelled as `none`. -/
def moveRightSteps : Nat → Nat → Loc → Loc → Option (Loc × Loc)
  | 0, _, c, o => some (c, o)
  | n + 1, w, c, o =>
    if w = 0 then none
    else if c.x = w - 1 then moveRightSteps n w c { o with x := o.x + 1 }
    else moveRightSteps n w { c with x := c.x + 1 } o

/-- The `while !row.indices.contains(&ptr) { ptr -= 1 }` loop of
    `snap_grapheme`: walk `ptr` down to the nearest index-table entry;
    decrementing past 0 underflows (`none`). -/
def snapBack (indices : List Nat) : Nat → Option Nat
  | 0 => if 0 ∈ indices then some 0 else none
  | p + 1 => if p + 1 ∈ indices then some (p + 1) else snapBack indices p

namespace Document

/-- `Document::move_left`.  Each operation on `&mut self` returning
    `Result<Status>` is modelled as `Option ((Except Error Status) ×
    Document)`: the final state is returned alongside the result, `none`
    standing for a panic. -/
def move_left (d : Document) : Option ((Except Error Status) × Document) :=
  if d.char_ptr = 0 then some (Except.ok Status.StartOfRow, d)
  else
    match d.get_width (-1) with
    | none => none
    | some (Except.error e) => some (Except.error e, d)
    | some (Except.ok w) =>
      match moveLeftSteps w d.cursor d.offset with
      | none => none
      | some (c, o) =>
        some (Except.ok Status.None,
          { d with cursor := c, offset := o, char_ptr := d.char_ptr - 1 })

/-- `Document::move_right`. -/
def move_right (d : Document) : Option ((Except Error Status) × Document) :=
  match d.current_row with
  | Except.error e => some (Except.error e, d)
  | Except.ok r =>
    if d.char_ptr = r.text.length then some (Except.ok Status.EndOfRow, d)
    else
      match d.get_width 0 with
      | none => none
      | some (Except.error e) => some (Except.error e, d)
      | some (Except.ok w) =>
        match moveRightSteps w d.size.w d.cursor d.offset with
        | none => none
        | some (c, o) =>
          some (Except.ok Status.None,
            { d with cursor := c, offset := o, char_ptr := d.char_ptr + 1 })

/-- `Document::snap_grapheme`: shift the horizontal position back to the
    nearest entry of the current row's index table. -/
def snap_grapheme (d : Document) : Option ((Except Error Unit) × Document) :=
  match d.current_row with
  | Except.error e => some (Except.error e, d)
  | Except.ok r =>
    let start := d.raw_loc.x
    match snapBack r.indices start with
    | none => none
    | some ptr =>
      match moveLeftSteps (start - ptr) d.cursor d.offset with
      | none => none
      | some (c, o) => some (Except.ok (), { d with cursor := c, offset := o })

/-- `Document::move_up`. -/
def move_up (d : Document) : Option ((Except Error Status) × Document) :=
  if d.raw_loc.y = 0 then some (Except.ok Status.StartOfDocument, d)
  else
    let d1 :=
      if d.cursor.y = 0 then { d with offset := { d.offset with y := d.offset.y - 1 } }
      else { d with cursor := { d.cursor with y := d.cursor.y - 1 } }
    match d1.snap_grapheme with
    | none => none
    | some (Except.error e, d2) => some (Except.error e, d2)
    | some (Except.ok _, d2) =>
      match d2.current_row with
      | Except.error e => some (Except.error e, d2)
      | Except.ok r =>
        some (Except.ok Status.None, { d2 with char_ptr := r.get_char_ptr d2.raw_loc.x })

/-- `Document::move_down`.  Note the boundary test compares against
    `rows.len()` itself, the grapheme snap's `Result` is discarded
    (`std::mem::drop`), and entering the position below the last row
    clamps the horizontal state to column 0. -/
def move_down (d : Document) : Option ((Except Error Status) × Document) :=
  if d.raw_loc.y = d.rows.length then some (Except.ok Status.EndOfDocument, d)
  else if d.size.h = 0 then none
  else
    let d1 :=
      if d.cursor.y = d.size.h - 1 then { d with offset := { d.offset with y := d.offset.y + 1 } }
      else { d with cursor := { d.cursor with y := d.cursor.y + 1 } }
    match d1.snap_grapheme with
    | none => none
    | some (_, d2) =>
      match d2.current_row with
      | Except.ok r =>
        some (Except.ok Status.None, { d2 with char_ptr := r.get_char_ptr d2.raw_loc.x })
      | Except.error _ =>
        some (Except.ok Status.None,
          { d2 with
            cursor := { d2.cursor with x := 0 }
            offset := { d2.offset with x := 0 }
            char_ptr := 0 })

end Document

/-- `event::Event`. -/
inductive Event where
  | Insert : Loc → Char → Event
  | Remove : Loc → Char → Event
  | InsertRow : Nat → List Char → Event
  | RemoveRow : Nat → List Char → Event
  | SplitDown : Loc → Event
  | SpliceUp : Loc → Event
  deriving DecidableEq, Repr

/-- `event::EditStack` (a `Vec` used as a stack: push and pop at the
    right-hand end). -/
structure EditStack where
  patch : List Event
  done : List (List Event)
  undone : List (List Event)
  deriving DecidableEq, Repr

namespace EditStack

/-- `EditStack::exe`: clear the redo history and append to the open patch. -/
def exe (s : EditStack) (e : Event) : EditStack :=
  { patch := s.patch ++ [e], done := s.done, undone := [] }

/-- `EditStack::commit`: move a non-empty open patch onto `done`. -/
def commit (s : EditStack) : EditStack :=
  if s.patch = [] then s
  else { patch := [], done := s.done ++ [s.patch], undone := s.undone }

/-- `EditStack::undo`: commit, pop the most recent patch off `done`,
    reverse it, push it onto `undone` and return it.  The returned value
    is paired with the mutated stack. -/
def undo (s : EditStack) : Option (List Event) × EditStack :=
  let s1 := s.commit
  match s1.done.getLast? with
  | none => (none, s1)
  | some p =>
    (some p.reverse,
     { patch := s1.patch, done := s1.done.dropLast, undone := s1.undone ++ [p.reverse] })

/-- `EditStack::redo`: pop from `undone`, reverse back to forward order,
    push onto `done` and return it. -/
def redo (s : EditStack) : Option (List Event) × EditStack :=
  match s.undone.getLast? with
  | none => (none, s)
  | some p =>
    (some p.reverse,
     { patch := s.patch, done := s.done ++ [p.reverse], undone := s.undone.dropLast })

end EditStack

/-- Split a path at `/` separators. -/
def splitOnSlash : List Char → List (List Char)
  | [] => [[]]
  | c :: rest =>
    if c = '/' then [] :: splitOnSlash rest
    else
      match splitOnSlash rest with
      | [] => [[c]]
      | l :: ls => (c :: l) :: ls

/-- Modelled from Rust `std::path::Path::file_name` (Unix paths): the last
    path component, skipping empty and `.` components; `None` when the
    path is empty or ends in `..`. -/
def pathFileName (p : List Char) : Option (List Char) :=
  let comps := (splitOnSlash p).filter (fun s => !(s.isEmpty || s == ['.']))
  match comps.getLast? with
  | none => none
  | some last => if last = ['.', '.'] then none else some last

/-- Modelled from Rust `std::path::Path::extension`: the part of the file
    name after the last `.`; `None` when there is no file name, no dot, or
    the only dot is the leading one. -/
def pathExtension (p : List Char) : Option (List Char) :=
  match pathFileName p with
  | none => none
  | some f =>
    match (f.enum.filter (fun x => x.2 == '.')).getLast? with
    | none => none
    | some id => if id.1 = 0 then none else some (f.drop (id.1 + 1))

/-- ASCII lower-casing of one character (`str::to_ascii_lowercase`). -/
def lowerChar (c : Char) : Char :=
  if 'A' ≤ c ∧ c ≤ 'Z' then Char.ofNat (c.toNat + 32) else c

/-- `utils::filetype`: the extension-to-language lookup table. -/
def filetype (extension : List Char) : Option String :=
  match String.mk (extension.map lowerChar) with
  | "abap" => some "ABAP"
  | "ada" => some "Ada"
  | "ahk" | "ahkl" => some "AutoHotkey"
  | "applescript" | "scpt" => some "AppleScript"
  | "arc" => some "Arc"
  | "asp" | "asax" | "ascx" | "ashx" | "asmx" | "aspx" | "axd" => some "ASP"
  | "as" => some "ActionScript"
  | "asc" | "ash" => some "AGS Script"
  | "asm" | "nasm" => some "Assembly"
  | "awk" | "auk" | "gawk" | "mawk" | "nawk" => some "Awk"
  | "bat" | "cmd" => some "Batch"
  | "b" | "bf" => some "Brainfuck"
  | "c" => some "C"
  | "cmake" => some "CMake"
  | "cbl" | "cobol" | "cob" => some "Cobol"
  | "class" | "java" => some "Java"
  | "clj" | "cl2" | "cljs" | "cljx" | "cljc" => some "Clojure"
  | "coffee" => some "CoffeeScript"
  | "cr" => some "Crystal"
  | "cu" | "cuh" => some "Cuda"
  | "cpp" | "cxx" => some "C++"
  | "cs" | "cshtml" | "csx" => some "C#"
  | "css" => some "CSS"
  | "csv" => some "CSV"
  | "d" | "di" => some "D"
  | "dart" => some "Dart"
  | "diff" | "patch" => some "Diff"
  | "dockerfile" => some "Dockerfile"
  | "ex" | "exs" => some "Elixr"
  | "elm" => some "Elm"
  | "el" => some "Emacs Lisp"
  | "erb" => some "ERB"
  | "erl" | "es" => some "Erlang"
  | "fs" | "fsi" | "fsx" => some "F#"
  | "f" | "f90" | "fpp" | "for" => some "FORTRAN"
  | "fish" => some "Fish"
  | "fth" => some "Forth"
  | "g4" => some "ANTLR"
  | "gd" => some "GDScript"
  | "glsl" | "vert" | "shader" | "geo" | "fshader" | "vrx" | "vsh" | "vshader" | "frag" => some "GLSL"
  | "gnu" | "gp" | "plot" => some "Gnuplot"
  | "go" => some "Go"
  | "groovy" | "gvy" => some "Groovy"
  | "hlsl" => some "HLSL"
  | "h" => some "C Header"
  | "haml" => some "Haml"
  | "handlebars" | "hbs" => some "Handlebars"
  | "hs" => some "Haskell"
  | "hpp" => some "C++ Header"
  | "html" | "htm" | "xhtml" => some "HTML"
  | "ini" | "cfg" => some "INI"
  | "ino" => some "Arduino"
  | "ijs" => some "J"
  | "json" => some "JSON"
  | "jsx" => some "JSX"
  | "js" => some "JavaScript"
  | "jl" => some "Julia"
  | "kt" | "ktm" | "kts" => some "Kotlin"
  | "ll" => some "LLVM"
  | "l" | "lex" => some "Lex"
  | "lua" => some "Lua"
  | "ls" => some "LiveScript"
  | "lol" => some "LOLCODE"
  | "lisp" | "asd" | "lsp" => some "Common Lisp"
  | "log" => some "Log file"
  | "m4" => some "M4"
  | "man" | "roff" => some "Groff"
  | "matlab" => some "Matlab"
  | "m" => some "Objective-C"
  | "ml" => some "OCaml"
  | "mk" | "mak" => some "Makefile"
  | "md" | "markdown" => some "Markdown"
  | "nix" => some "Nix"
  | "numpy" => some "NumPy"
  | "opencl" | "cl" => some "OpenCL"
  | "php" => some "PHP"
  | "pas" => some "Pascal"
  | "pl" => some "Perl"
  | "psl" => some "PowerShell"
  | "pro" => some "Prolog"
  | "py" | "pyw" => some "Python"
  | "pyx" | "pxd" | "pxi" => some "Cython"
  | "r" => some "R"
  | "rst" => some "reStructuredText"
  | "rkt" => some "Racket"
  | "rb" | "ruby" => some "Ruby"
  | "rs" => some "Rust"
  | "sh" => some "Shell"
  | "scss" => some "SCSS"
  | "sql" => some "SQL"
  | "sass" => some "Sass"
  | "scala" => some "Scala"
  | "scm" => some "Scheme"
  | "st" => some "Smalltalk"
  | "swift" => some "Swift"
  | "toml" => some "TOML"
  | "tcl" => some "Tcl"
  | "tex" => some "TeX"
  | "ts" | "tsx" => some "TypeScript"
  | "txt" => some "Plain Text"
  | "vala" => some "Vala"
  | "vb" | "vbs" => some "Visual Basic"
  | "vue" => some "Vue"
  | "xm" | "x" | "xi" => some "Logos"
  | "xml" => some "XML"
  | "y" | "yacc" => some "Yacc"
  | "yaml" | "yml" => some "Yaml"
  | "yxx" => some "Bison"
  | "zsh" => some "Zsh"
  | _ => none

/-- The mapping returned by `Document::status_line_info`. -/
structure StatusLine where
  row : String
  column : String
  total : String
  file : String
  full_file : String
  ftype : String
  modified : String
  extension : String
  deriving DecidableEq, Repr

/-- `Document::status_line_info`.  The two `.unwrap()` calls on
    `Path::file_name()` and `Path::extension()` panic (`none`) when the
    respective component is absent. -/
def Document.status_line_info (d : Document) : Option StatusLine :=
  let r := d.loc.y + 1
  let total := d.rows.length
  let column := d.loc.x
  let m := if d.modified then "[+]" else ""
  match d.info.file with
  | some name =>
    match pathFileName name with
    | none => none
    | some f =>
      match pathExtension name with
      | none => none
      | some e =>
        some
          { row := toString r
            column := toString column
            total := toString total
            file := String.mk f
            full_file := String.mk name
            ftype := (filetype e).getD "Unknown"
            modified := m
            extension := String.mk e }
  | none =>
    some
      { row := toString r
        column := toString column
        total := toString total
        file := "[No Name]"
        full_file := "[No Name]"
        ftype := (filetype []).getD "Unknown"
        modified := m
        extension := "" }

/-- Tab-aware display width of a list of characters: the proof vocabulary
    for cumulative index-table entries. -/
def sumw (tab : Nat) (l : List Char) : Nat :=
  (l.map (fun c => width_char c tab)).sum

/-- A row is well-formed when its index table is exactly the one
    recomputed from its text. -/
def Row.WF (r : Row) : Prop :=
  r.indices = Row.raw_to_indices r.text r.tab_width

/-- Keep only an `Ok` row from a fallible row operation. -/
def okRow : Option (Except Error Row) → Option Row
  | some (Except.ok r) => some r
  | _ => none

/-- Scenario row for the worked example: `"aa好b好c"`. -/
def c8_r0 : Row := Row.new "aa好b好c".data

/-- The example row after `insert(3, "hao")`. -/
def c8_r1 : Option Row := okRow (c8_r0.insert 3 "hao".data)

/-- The example row after a further `insert(2, "ni")`. -/
def c8_r2 : Option Row := c8_r1.bind (fun r => okRow (r.insert 2 "ni".data))

/-- The example row after a further `remove(3..7)`. -/
def c8_r3 : Option Row := c8_r2.bind (fun r => okRow (r.remove 3 7))

/-- A freshly opened ten-`a` document in a width-3 viewport. -/
def c3_d0 : Document := (Document.new ⟨3, 3⟩).openFrom "a.txt".data "aaaaaaaaaa".data

/-- The same document after `goto_x(5)`, which anchors column 5 to the
    viewport's left edge: `cursor.x = 0`, `offset.x = 5`. -/
def c3_d1 : Document := (c3_d0.goto_x 5).2

/-- A freshly opened one-row document (`"a"`) in a 10×3 viewport, sitting
    on its last row (row 0). -/
def c6_d0 : Document := (Document.new ⟨10, 3⟩).openFrom "a.txt".data "a".data

/-- A freshly opened two-row document (`"a"`, `"b"`) in a 10×3 viewport. -/
def c6_d1 : Document := (Document.new ⟨10, 3⟩).openFrom "a.txt".data "a\nb".data

/-- A document whose associated file path `"Makefile"` has no extension. -/
def c9_d0 : Document :=
  { Document.new ⟨10, 10⟩ with
    info := { file := some "Makefile".data, is_dos := false, tab_width := 4 } }

/-- The result of `move_left` from `c3_d1`. -/
def c3_d2 : Option ((Except Error Status) × Document) := c3_d1.move_left

/-- The result of `move_right` after that `move_left`. -/
def c3_d3 : Option ((Except Error Status) × Document) :=
  c3_d2.bind (fun y => y.2.move_right)

/-- A concrete edit stack: an open two-event patch over one committed
    patch. -/
def c7_s0 : EditStack :=
  { patch := [Event.Insert ⟨0, 0⟩ 'a', Event.Remove ⟨1, 0⟩ 'b']
    done := [[Event.InsertRow 0 "q".data]]
    undone := [] }

/-! ## Running-sum lemmas -/

theorem scanSum_length (a : Nat) (l : List Nat) : (scanSum a l).length = l.length := by
  induction l generalizing a with
  | nil => rfl
  | cons x xs ih => simp [scanSum, ih]

theorem scanSum_append (a : Nat) (l₁ l₂ : List Nat) :
    scanSum a (l₁ ++ l₂) = scanSum a l₁ ++ scanSum (a + l₁.sum) l₂ := by
  induction l₁ generalizing a with
  | nil => simp [scanSum]
  | cons x xs ih => simp [scanSum, ih, Nat.add_assoc]

theorem scanSum_shift (a b : Nat) (l : List Nat) :
    scanSum (a + b) l = (scanSum b l).map (fun x => a + x) := by
  induction l generalizing b with
  | nil => rfl
  | cons x xs ih => simp [scanSum, Nat.add_assoc, ih (b + x)]

theorem scanSum_take (n a : Nat) (l : List Nat) :
    (scanSum a l).take n = scanSum a (l.take n) := by
  induction l generalizing n a with
  | nil => simp [scanSum]
  | cons x xs ih =>
    cases n with
    | zero => rfl
    | succ m => simp [scanSum, ih]

theorem scanSum_drop (n a : Nat) (l : List Nat) :
    (scanSum a l).drop n = scanSum (a + (l.take n).sum) (l.drop n) := by
  induction l generalizing n a with
  | nil => simp [scanSum]
  | cons x xs ih =>
    cases n with
    | zero => simp
    | succ m => simp [scanSum, ih, Nat.add_assoc]

theorem scanSum_getD (l : List Nat) (a i : Nat) (h : i < l.length) :
    (scanSum a l).getD i 0 = a + (l.take (i + 1)).sum := by
  induction l generalizing a i with
  | nil => simp at h
  | cons x xs ih =>
    cases i with
    | zero => simp [scanSum]
    | succ j =>
      have hj : j < xs.length := by simpa using h
      show ((a + x) :: scanSum (a + x) xs).getD (j + 1) 0 = _
      rw [List.getD_cons_succ, ih (a + x) j hj]
      simp [Nat.add_assoc]

theorem map_add_sub_cancel (b : Nat) (l : List Nat) :
    (l.map (fun x => b + x)).map (fun x => x - b) = l := by
  rw [List.map_map]
  simp [Function.comp_def]

/-! ## Index-table lemmas -/

theorem width_char_nul (tab : Nat) : width_char (Char.ofNat 0) tab = 0 := by
  unfold width_char
  rw [if_neg (by decide)]
  decide

theorem raw_to_indices_eq_cons (text : List Char) (tab : Nat) :
    Row.raw_to_indices text tab = 0 :: scanSum 0 (text.map (fun c => width_char c tab)) := by
  unfold Row.raw_to_indices
  simp [scanSum, width_char_nul]

theorem raw_to_indices_length (text : List Char) (tab : Nat) :
    (Row.raw_to_indices text tab).length = text.length + 1 := by
  simp [raw_to_indices_eq_cons, scanSum_length]

theorem raw_to_indices_getD (text : List Char) (tab i : Nat) (h : i ≤ text.length) :
    (Row.raw_to_indices text tab).getD i 0 = sumw tab (text.take i) := by
  cases i with
  | zero => simp [raw_to_indices_eq_cons, sumw]
  | succ j =>
    have hj : j < (text.map (fun c => width_char c tab)).length := by simpa using h
    rw [raw_to_indices_eq_cons, List.getD_cons_succ, scanSum_getD _ 0 j hj]
    simp [sumw, List.map_take]

theorem sumw_append (tab : Nat) (l₁ l₂ : List Char) :
    sumw tab (l₁ ++ l₂) = sumw tab l₁ + sumw tab l₂ := by
  simp [sumw]

theorem sumw_take_succ (tab : Nat) (l : List Char) (i : Nat) (h : i < l.length) :
    sumw tab (l.take (i + 1))
      = sumw tab (l.take i) + width_char (l.getD i (Char.ofNat 0)) tab := by
  rw [List.take_succ, List.getElem?_eq_getElem h, sumw_append]
  simp [sumw, List.getElem?_eq_getElem h]

theorem sumw_take_le_succ (tab : Nat) (l : List Char) (k : Nat) :
    sumw tab (l.take k) ≤ sumw tab (l.take (k + 1)) := by
  by_cases hk : k < l.length
  · rw [sumw_take_succ tab l k hk]
    omega
  · rw [List.take_of_length_le (by omega), List.take_of_length_le (by omega)]

theorem sumw_take_mono (tab : Nat) (l : List Char) {i j : Nat} (h : i ≤ j) :
    sumw tab (l.take i) ≤ sumw tab (l.take j) := by
  induction j with
  | zero =>
    have : i = 0 := by omega
    simp [this]
  | succ k ih =>
    rcases Nat.le_succ_iff.mp h with h1 | h1
    · exact (ih h1).trans (sumw_take_le_succ tab l k)
    · simp [h1]

/-! ## Well-formedness and the invariant -/

theorem WF_length {r : Row} (h : r.WF) : r.indices.length = r.text.length + 1 := by
  rw [h, raw_to_indices_length]

theorem WF_getD {r : Row} (h : r.WF) {i : Nat} (hi : i ≤ r.text.length) :
    r.indices.getD i 0 = sumw r.tab_width (r.text.take i) := by
  rw [h, raw_to_indices_getD _ _ i hi]

theorem WF_width {r : Row} (h : r.WF) : r.width = sumw r.tab_width r.text := by
  unfold Row.width
  have hlen := WF_length h
  rw [List.getLast?_eq_getElem?, hlen]
  have : r.indices[r.text.length + 1 - 1]?.getD 0 = r.indices.getD r.text.length 0 := by
    simp
  rw [this, WF_getD h (Nat.le_refl _), List.take_length]

theorem inv_of_wf {r : Row} (h : r.WF) : r.Inv := by
  refine ⟨WF_length h, ?_, ?_, ?_⟩
  · simpa [sumw] using WF_getD h (i := 0) (Nat.zero_le _)
  · intro i hi
    rw [WF_getD h (Nat.le_of_lt hi), WF_getD h (by omega), sumw_take_succ _ _ i hi]
    omega
  · intro i hi
    rw [WF_getD h (Nat.le_of_lt hi), WF_getD h (by omega), sumw_take_succ _ _ i hi]
    omega

theorem wf_of_inv {r : Row} (h : r.Inv) : r.WF := by
  obtain ⟨h1, h2, h3, h4⟩ := h
  have key : ∀ i, i ≤ r.text.length →
      r.indices.getD i 0 = sumw r.tab_width (r.text.take i) := by
    intro i
    induction i with
    | zero =>
      intro _
      simpa [sumw] using h2
    | succ j ih =>
      intro hj
      have hj' : j < r.text.length := by omega
      have e1 := h3 j hj'
      have e2 := h4 j hj'
      rw [sumw_take_succ _ _ j hj', ← ih (by omega), ← e2]
      omega
  unfold Row.WF
  apply List.ext_getElem
  · rw [h1, raw_to_indices_length]
  · intro i hi1 hi2
    have hi : i ≤ r.text.length := by omega
    rw [← List.getD_eq_getElem _ 0 hi1, ← List.getD_eq_getElem _ 0 hi2,
      key i hi, raw_to_indices_getD _ _ i hi]

theorem inv_iff_wf (r : Row) : r.Inv ↔ r.WF :=
  ⟨wf_of_inv, inv_of_wf⟩

/-! ## Structure of the index table under take, drop and append -/

theorem raw_to_indices_take (text : List Char) (tab e : Nat) :
    (Row.raw_to_indices text tab).take (e + 1) = Row.raw_to_indices (text.take e) tab := by
  rw [raw_to_indices_eq_cons, raw_to_indices_eq_cons, List.take_succ_cons, scanSum_take,
    List.map_take]

theorem scanSum_eq_map (a : Nat) (l : List Nat) :
    scanSum a l = (scanSum 0 l).map (fun x => a + x) := by
  have h := scanSum_shift a 0 l
  simpa using h

theorem raw_to_indices_drop (text : List Char) (tab e : Nat) (he : e ≤ text.length) :
    (Row.raw_to_indices text tab).drop e
      = (Row.raw_to_indices (text.drop e) tab).map (fun i => sumw tab (text.take e) + i) := by
  cases e with
  | zero => simp [sumw]
  | succ j =>
    have hj : j < text.length := by omega
    have hj' : j < (text.map (fun c => width_char c tab)).length := by simpa using hj
    rw [raw_to_indices_eq_cons, raw_to_indices_eq_cons]
    rw [List.drop_succ_cons, scanSum_drop, List.drop_eq_getElem_cons hj', List.map_cons]
    have hAM : 0 + ((text.map (fun c => width_char c tab)).take j).sum
        + (text.map (fun c => width_char c tab))[j] = sumw tab (text.take (j + 1)) := by
      rw [List.getElem_map, sumw_take_succ tab text j hj]
      have hs : ((text.map (fun c => width_char c tab)).take j).sum = sumw tab (text.take j) := by
        simp [sumw, List.map_take]
      rw [hs, List.getD_eq_getElem _ _ hj]
      omega
    show (0 + ((text.map (fun c => width_char c tab)).take j).sum
          + (text.map (fun c => width_char c tab))[j])
        :: scanSum (0 + ((text.map (fun c => width_char c tab)).take j).sum
          + (text.map (fun c => width_char c tab))[j])
          ((text.map (fun c => width_char c tab)).drop (j + 1)) = _
    rw [hAM]
    have hz : sumw tab (text.take (j + 1)) + 0 = sumw tab (text.take (j + 1)) := rfl
    rw [hz]
    congr 1
    rw [List.map_drop, scanSum_eq_map]

theorem raw_to_indices_append (l₁ l₂ : List Char) (tab : Nat) :
    Row.raw_to_indices (l₁ ++ l₂) tab
      = Row.raw_to_indices l₁ tab
        ++ ((Row.raw_to_indices l₂ tab).tail).map (fun i => sumw tab l₁ + i) := by
  rw [raw_to_indices_eq_cons, raw_to_indices_eq_cons, raw_to_indices_eq_cons]
  rw [List.map_append, scanSum_append, List.tail_cons]
  have hs : (0 : Nat) + (l₁.map (fun c => width_char c tab)).sum = sumw tab l₁ := by
    simp [sumw]
  rw [hs, scanSum_eq_map (sumw tab l₁)]
  rfl

/-! ## The editing operations preserve well-formedness -/

theorem insert_wf {r : Row} {start : Nat} {s : List Char} {r' : Row}
    (h : r.insert start s = some (Except.ok r')) :
    r'.WF ∧ r'.text = r.text.take start ++ s ++ r.text.drop start
      ∧ r'.tab_width = r.tab_width ∧ start ≤ r.text.length := by
  unfold Row.insert at h
  split at h
  · simp at h
  · split at h
    next hlen =>
      simp only [Option.some.injEq, Except.ok.injEq] at h
      subst h
      exact ⟨rfl, rfl, rfl, hlen⟩
    · simp at h

theorem remove_wf {r : Row} {s e : Nat} {r' : Row}
    (hr : r.WF) (h : r.remove s e = some (Except.ok r')) :
    r'.WF ∧ r'.text = r.text.take s ++ r.text.drop e
      ∧ r'.tab_width = r.tab_width ∧ s ≤ e ∧ e ≤ r.text.length := by
  unfold Row.remove at h
  split at h
  · simp at h
  · split at h
    next hc =>
      obtain ⟨hse, hel⟩ := hc
      simp only [Option.some.injEq, Except.ok.injEq] at h
      subst h
      refine ⟨?_, rfl, rfl, hse, hel⟩
      show r.indices.take s
          ++ (r.indices.drop e).map (fun i => i - (r.indices.getD e 0 - r.indices.getD s 0))
        = Row.raw_to_indices (r.text.take s ++ r.text.drop e) r.tab_width
      have hsl : s ≤ r.text.length := hse.trans hel
      have hge : r.indices.getD e 0 = sumw r.tab_width (r.text.take e) := WF_getD hr hel
      have hgs : r.indices.getD s 0 = sumw r.tab_width (r.text.take s) := WF_getD hr hsl
      have hmono : sumw r.tab_width (r.text.take s) ≤ sumw r.tab_width (r.text.take e) :=
        sumw_take_mono _ _ hse
      rw [hge, hgs, hr, raw_to_indices_drop r.text r.tab_width e hel, List.map_map]
      have hfun : ((fun i =>
            i - (sumw r.tab_width (r.text.take e) - sumw r.tab_width (r.text.take s)))
            ∘ fun i => sumw r.tab_width (r.text.take e) + i)
          = fun i => sumw r.tab_width (r.text.take s) + i := by
        funext i
        simp only [Function.comp_apply]
        omega
      rw [hfun, raw_to_indices_append, raw_to_indices_eq_cons (r.text.drop e)]
      rw [List.tail_cons]
      have hcons : (0 :: scanSum 0 ((r.text.drop e).map (fun c => width_char c r.tab_width))).map
            (fun i => sumw r.tab_width (r.text.take s) + i)
          = (sumw r.tab_width (r.text.take s) + 0)
            :: (scanSum 0 ((r.text.drop e).map (fun c => width_char c r.tab_width))).map
              (fun i => sumw r.tab_width (r.text.take s) + i) := rfl
      rw [hcons]
      have hz : sumw r.tab_width (r.text.take s) + 0 = sumw r.tab_width (r.text.take s) := rfl
      rw [hz, List.append_cons]
      congr 1
      have hslen : s < (Row.raw_to_indices r.text r.tab_width).length := by
        rw [raw_to_indices_length]
        omega
      rw [← raw_to_indices_take r.text r.tab_width s, List.take_succ,
        List.getElem?_eq_getElem hslen]
      have hval : (Row.raw_to_indices r.text r.tab_width)[s]
          = sumw r.tab_width (r.text.take s) := by
        rw [← List.getD_eq_getElem _ 0 hslen, raw_to_indices_getD _ _ s hsl]
      rw [hval]
      rfl
    · simp at h

theorem split_wf {r : Row} {idx : Nat} {left right : Row}
    (hr : r.WF) (h : r.split idx = Except.ok (left, right)) :
    left.WF ∧ right.WF ∧ idx ≤ r.text.length
      ∧ left.text = r.text.take idx ∧ right.text = r.text.drop idx
      ∧ left.tab_width = r.tab_width ∧ right.tab_width = r.tab_width := by
  unfold Row.split at h
  split at h
  · simp at h
  next h1 =>
    split at h
    · simp at h
    next h2 =>
      have hidx : idx ≤ r.text.length := by omega
      simp only [Except.ok.injEq, Prod.mk.injEq] at h
      obtain ⟨hl, hrt⟩ := h
      subst hl
      subst hrt
      refine ⟨?_, ?_, hidx, rfl, rfl, rfl, rfl⟩
      · show r.indices.take (idx + 1) = Row.raw_to_indices (r.text.take idx) r.tab_width
        rw [hr, raw_to_indices_take]
      · show ((r.indices.drop idx).map
            (fun i => i - (r.indices.drop idx).head?.getD 0))
          = Row.raw_to_indices (r.text.drop idx) r.tab_width
        rw [hr, raw_to_indices_drop r.text r.tab_width idx hidx]
        have hshift : (((Row.raw_to_indices (r.text.drop idx) r.tab_width).map
              (fun i => sumw r.tab_width (r.text.take idx) + i)).head?).getD 0
            = sumw r.tab_width (r.text.take idx) := by
          rw [raw_to_indices_eq_cons (r.text.drop idx)]
          rfl
        rw [hshift, List.map_map]
        have hfun : ((fun i => i - sumw r.tab_width (r.text.take idx))
            ∘ fun i => sumw r.tab_width (r.text.take idx) + i) = fun i => i := by
          funext i
          simp
        rw [hfun, List.map_id']

theorem splice_wf {r other res : Row}
    (hr : r.WF) (ho : other.WF) (ht : other.tab_width = r.tab_width)
    (h : r.splice other = some res) :
    res.WF ∧ res.text = r.text ++ other.text ∧ res.tab_width = r.tab_width := by
  unfold Row.splice at h
  split at h
  · simp at h
  next x rest heq =>
    simp only [Option.some.injEq] at h
    subst h
    refine ⟨?_, rfl, rfl⟩
    show r.indices ++ rest.map (fun i => i + r.indices.getLast?.getD 0)
      = Row.raw_to_indices (r.text ++ other.text) r.tab_width
    have hW : r.indices.getLast?.getD 0 = sumw r.tab_width r.text := by
      have hw := WF_width hr
      unfold Row.width at hw
      exact hw
    have hrest : rest = (Row.raw_to_indices other.text r.tab_width).tail := by
      have h2 : other.indices = Row.raw_to_indices other.text r.tab_width := by
        rw [ho, ht]
      rw [h2] at heq
      rw [heq]
      rfl
    rw [raw_to_indices_append, hrest, hW, hr]
    congr 1
    apply List.map_congr_left
    intro a _
    omega

theorem split_some (r : Row) (idx : Nat) (hw : r.WF) (hidx : idx ≤ r.text.length) :
    ∃ left right, r.split idx = Except.ok (left, right) := by
  have hlen := WF_length hw
  unfold Row.split
  rw [if_neg (by omega), if_neg (by omega)]
  exact ⟨_, _, rfl⟩

theorem splice_some (r other : Row) (ho : other.WF) : ∃ res, r.splice other = some res := by
  have hlen := WF_length ho
  unfold Row.splice
  rcases h : other.indices with _ | ⟨x, rest⟩
  · rw [h] at hlen
    simp at hlen
  · exact ⟨_, rfl⟩

/-! ## Claim C1 -/

/-- C1: on any row satisfying the index-table invariant, every successful
    editing operation — `insert`, `remove` with a valid range, `split` at a
    valid index, `splice` with another well-formed row sharing the tab
    width — yields rows that again satisfy the invariant: `len(text)+1`
    entries, first entry 0, non-decreasing, consecutive differences equal
    to the tab-aware character widths. -/
theorem c1_edit_ops_preserve_invariant (r : Row) (hr : r.Inv) :
    (∀ start s r', r.insert start s = some (Except.ok r') → r'.Inv) ∧
    (∀ s e r', r.remove s e = some (Except.ok r') → r'.Inv) ∧
    (∀ idx left right, r.split idx = Except.ok (left, right) → left.Inv ∧ right.Inv) ∧
    (∀ other res, other.Inv → other.tab_width = r.tab_width →
      r.splice other = some res → res.Inv) := by
  have hw := wf_of_inv hr
  refine ⟨?_, ?_, ?_, ?_⟩
  · intro start s r' h
    exact inv_of_wf (insert_wf h).1
  · intro s e r' h
    exact inv_of_wf (remove_wf hw h).1
  · intro idx left right h
    obtain ⟨h1, h2, _⟩ := split_wf hw h
    exact ⟨inv_of_wf h1, inv_of_wf h2⟩
  · intro other res hinv htab h
    exact inv_of_wf (splice_wf hw (wf_of_inv hinv) htab h).1

/-- C1 witness: the invariant, via the theorem, for `"a好"` after
    `insert(1, "x")`. -/
theorem c1_edit_ops_preserve_invariant_witness :
    (Row.mk "ax好".data [0, 1, 2, 4] true 4).Inv :=
  (c1_edit_ops_preserve_invariant (Row.new "a好".data) (by decide)).1
    1 "x".data (Row.mk "ax好".data [0, 1, 2, 4] true 4) rfl

/-! ## Claim C2 -/

/-- C2: `Row::insert` is claimed to return a typed `Ok` and never panic
    for any `start` not exceeding the display width.  On the row `"好"`
    (character count 1, display width 2) the width bound admits
    `start = 2`, yet `text.splice(2..2, ..)` indexes past the character
    count and panics. -/
theorem c2_insert_panics_within_width :
    2 ≤ (Row.new "好".data).width ∧ (Row.new "好".data).len < 2 ∧
    (Row.new "好".data).insert 2 "x".data = none := by
  exact ⟨by decide, by decide, rfl⟩

/-! ## Claim C4 -/

/-- C4: splitting a well-formed row at a valid character index and then
    splicing the two halves reconstructs the original text and the
    original total display width. -/
theorem c4_split_splice_round_trip (r : Row) (hr : r.Inv) (idx : Nat) (hidx : idx ≤ r.len) :
    ∃ left right res,
      r.split idx = Except.ok (left, right) ∧ left.splice right = some res ∧
      res.text = r.text ∧ res.width = r.width := by
  have hw := wf_of_inv hr
  obtain ⟨left, right, hsplit⟩ := split_some r idx hw hidx
  obtain ⟨hlw, hrw, _, hlt, hrt, hltab, hrtab⟩ := split_wf hw hsplit
  obtain ⟨res, hsplice⟩ := splice_some left right hrw
  obtain ⟨hresw, hrest, hrestab⟩ := splice_wf hlw hrw (by rw [hrtab, hltab]) hsplice
  refine ⟨left, right, res, hsplit, hsplice, ?_, ?_⟩
  · rw [hrest, hlt, hrt, List.take_append_drop]
  · rw [WF_width hresw, WF_width hw, hrest, hlt, hrt, List.take_append_drop, hrestab, hltab]

/-- C4 witness: the round trip on `"a好b"` split at index 1. -/
theorem c4_split_splice_round_trip_witness :
    ∃ left right res,
      (Row.new "a好b".data).split 1 = Except.ok (left, right) ∧
      left.splice right = some res ∧
      res.text = (Row.new "a好b".data).text ∧
      res.width = (Row.new "a好b".data).width :=
  c4_split_splice_round_trip (Row.new "a好b".data) (by decide) 1 (by decide)

/-! ## Claim C8 -/

/-- C8: the worked scenario — the row `"aa好b好c"` has index table
    `[0,1,2,4,5,7,8]`; after `insert(3, "hao")` then `insert(2, "ni")` its
    full rendering is `"aani好haob好c"`, and after `remove(3..7)` it is
    `"aanob好c"`. -/
theorem c8_scenario :
    c8_r0.indices = [0, 1, 2, 4, 5, 7, 8] ∧
    c8_r2.map Row.render_full = some "aani好haob好c" ∧
    c8_r3.map Row.render_full = some "aanob好c" :=
  ⟨rfl, rfl, rfl⟩

/-! ## Claim C10 -/

/-- C10: on a well-formed row, `get_char_ptr` sends any display column
    strictly inside the total width that is not an index-table entry
    (a column inside a wide character's or expanded tab's span) to
    character index 0, wherever the spanned character lies; columns at or
    beyond the total width map to the character count, and no column
    strictly inside the width does. -/
theorem c10_get_char_ptr_spans (r : Row) (hr : r.Inv) (x : Nat) :
    (x < r.width → x ∉ r.indices → r.get_char_ptr x = 0) ∧
    (r.width ≤ x → r.get_char_ptr x = r.len) ∧
    (x < r.width → r.get_char_ptr x ≠ r.len) := by
  have hw := wf_of_inv hr
  refine ⟨?_, ?_, ?_⟩
  · intro hx hmem
    unfold Row.get_char_ptr
    rw [if_neg (by omega)]
    have hnone : r.indices.findIdx? (fun i => decide (x = i)) = none := by
      rw [List.findIdx?_eq_none_iff]
      intro y hy
      simp only [decide_eq_false_iff_not]
      intro hxy
      exact hmem (hxy ▸ hy)
    rw [hnone]
    rfl
  · intro hx
    unfold Row.get_char_ptr
    rw [if_pos hx]
    rfl
  · intro hx
    unfold Row.get_char_ptr
    rw [if_neg (by omega)]
    cases hfind : r.indices.findIdx? (fun i => decide (x = i)) with
    | none =>
      have hwidth : 0 < r.width := by omega
      have hne : r.text ≠ [] := by
        intro hnil
        rw [WF_width hw, hnil] at hwidth
        simp [sumw] at hwidth
      have hpos : 0 < r.text.length := List.length_pos.mpr hne
      simp only [Option.getD_none]
      unfold Row.len
      omega
    | some p =>
      obtain ⟨hp, hpx, _⟩ := List.findIdx?_eq_some_iff_getElem.mp hfind
      simp only [Option.getD_some]
      intro hpe
      have hplen : p = r.text.length := hpe
      have hpw : r.indices[p] = r.width := by
        subst hplen
        rw [← List.getD_eq_getElem _ 0 hp, WF_getD hw (Nat.le_refl _), List.take_length,
          WF_width hw]
      have hx2 : x = r.indices[p] := of_decide_eq_true hpx
      omega

/-- C10 witness: on `"a好b"` (index table `[0,1,3,4]`), column 2 — inside
    the wide character — maps to character index 0. -/
theorem c10_get_char_ptr_spans_witness : (Row.new "a好b".data).get_char_ptr 2 = 0 :=
  (c10_get_char_ptr_spans (Row.new "a好b".data) (by decide) 2).1 (by decide) (by decide)

/-! ## Claim C7 -/

theorem dropLast_append_of_getLast? {α : Type} (l : List α) (a : α)
    (h : l.getLast? = some a) : l.dropLast ++ [a] = l := by
  induction l with
  | nil => simp at h
  | cons x xs ih =>
    cases xs with
    | nil =>
      simp only [List.getLast?_singleton, Option.some.injEq] at h
      simp [h]
    | cons y ys =>
      rw [List.getLast?_cons_cons] at h
      show x :: ((y :: ys).dropLast ++ [a]) = x :: (y :: ys)
      rw [ih h]

/-- C7: a successful `undo` returns the most recently committed patch
    (after implicitly committing the open patch) in reversed order and
    moves it onto `undone`; an immediate `redo` returns the same events in
    the original forward order and moves them back onto `done`, restoring
    the committed stacks; and `undo`/`redo` return nothing and leave the
    stack untouched whenever `done` (after the implicit commit) or
    `undone` respectively is empty. -/
theorem c7_undo_redo (s s' : EditStack) (p : List Event) (h : s.undo = (some p, s')) :
    p = ((s.commit).done.getLast?.getD []).reverse ∧
    s'.undone = (s.commit).undone ++ [p] ∧
    s'.done = (s.commit).done.dropLast ∧
    (s'.redo).1 = some p.reverse ∧
    ((s'.redo).2).done = (s.commit).done ∧
    ((s'.redo).2).undone = (s.commit).undone ∧
    (∀ t : EditStack, t.commit.done = [] → t.undo = (none, t)) ∧
    (∀ t : EditStack, t.undone = [] → t.redo = (none, t)) := by
  have hgen1 : ∀ t : EditStack, t.commit.done = [] → t.undo = (none, t) := by
    intro t ht
    have hc : t.commit = t := by
      unfold EditStack.commit
      unfold EditStack.commit at ht
      split
      · rfl
      next hp =>
        rw [if_neg hp] at ht
        simp at ht
    unfold EditStack.undo
    dsimp only
    rw [hc]
    rw [hc] at ht
    rw [ht]
    rfl
  have hgen2 : ∀ t : EditStack, t.undone = [] → t.redo = (none, t) := by
    intro t ht
    unfold EditStack.redo
    rw [ht]
    rfl
  unfold EditStack.undo at h
  dsimp only at h
  cases hlast : s.commit.done.getLast? with
  | none =>
    rw [hlast] at h
    simp at h
  | some q =>
    rw [hlast] at h
    simp only [Prod.mk.injEq, Option.some.injEq] at h
    obtain ⟨hp, hs'⟩ := h
    subst hp
    subst hs'
    refine ⟨rfl, rfl, rfl, ?_, ?_, ?_, hgen1, hgen2⟩
    · unfold EditStack.redo
      rw [List.getLast?_concat]
    · unfold EditStack.redo
      rw [List.getLast?_concat]
      show s.commit.done.dropLast ++ [q.reverse.reverse] = s.commit.done
      rw [List.reverse_reverse]
      exact dropLast_append_of_getLast? _ _ hlast
    · unfold EditStack.redo
      rw [List.getLast?_concat]
      show (s.commit.undone ++ [q.reverse]).dropLast = s.commit.undone
      rw [List.dropLast_concat]

/-- C7 witness: on a concrete stack with an open two-event patch, `undo`
    returns that patch reversed. -/
theorem c7_undo_redo_witness :
    ([Event.Remove ⟨1, 0⟩ 'b', Event.Insert ⟨0, 0⟩ 'a'] : List Event)
      = ((c7_s0.commit).done.getLast?.getD []).reverse :=
  (c7_undo_redo c7_s0
    { patch := []
      done := [[Event.InsertRow 0 "q".data]]
      undone := [[Event.Remove ⟨1, 0⟩ 'b', Event.Insert ⟨0, 0⟩ 'a']] }
    [Event.Remove ⟨1, 0⟩ 'b', Event.Insert ⟨0, 0⟩ 'a'] rfl).1

/-! ## Claim C5 -/

/-- C5: line-ending detection is claimed to set `is_dos` exactly when the
    content contains the two-character CRLF sequence.  The code instead
    tests `raw.contains("\\r\\n")` — the literal four characters backslash,
    `r`, backslash, `n` — so real CRLF content is detected as LF (and
    content with the literal backslash sequence as DOS), while the
    row-splitting itself does treat CRLF correctly. -/
theorem c5_crlf_detection :
    containsSub "a\r\nb".data ['\r', '\n'] = true ∧
    ((Document.new ⟨10, 10⟩).openFrom "t.txt".data "a\r\nb".data).info.is_dos = false ∧
    containsSub "a\\r\\nb".data ['\r', '\n'] = false ∧
    ((Document.new ⟨10, 10⟩).openFrom "t.txt".data "a\\r\\nb".data).info.is_dos = true ∧
    (((Document.new ⟨10, 10⟩).openFrom "t.txt".data "a\r\nb\n".data).rows.map Row.text)
      = ["a".data, "b".data] :=
  ⟨rfl, rfl, rfl, rfl, rfl⟩

/-! ## Claim C9 -/

/-- C9: `status_line_info` is claimed to return its mapping without
    panicking even when the file path has no extension or no file-name
    component.  For the path `"Makefile"` the `.extension().unwrap()`
    call panics, and for a path ending in `".."` the
    `.file_name().unwrap()` call panics; with no path at all it returns
    the placeholder mapping. -/
theorem c9_status_line_info_panics :
    c9_d0.info.file = some "Makefile".data ∧
    c9_d0.status_line_info = none ∧
    ({ Document.new ⟨10, 10⟩ with
        info := { file := some "a/..".data, is_dos := false, tab_width := 4 } }
      : Document).status_line_info = none ∧
    (Document.new ⟨10, 10⟩).status_line_info
      = some
        { row := "1", column := "0", total := "0", file := "[No Name]",
          full_file := "[No Name]", ftype := "Unknown", modified := "", extension := "" } :=
  ⟨rfl, rfl, rfl, rfl⟩

/-! ## Claim C3 -/

/-- C3 counterexample: the document state reached from a fresh ten-`a`
    document (viewport width 3) by `goto_x(5)` has
    `(cursor, offset, char_ptr) = ((0,0), (5,0), 5)`, an interior
    position of the 10-character row; `move_left` then `move_right`
    returns `Status::None` twice and restores `char_ptr = 5` but ends at
    `(cursor, offset) = ((1,0), (4,0))`, not the original split. -/
theorem c3_move_left_right_counterexample :
    (c3_d1.cursor, c3_d1.offset, c3_d1.char_ptr) = (⟨0, 0⟩, ⟨5, 0⟩, 5) ∧
    c3_d1.current_row = Except.ok ((Row.new "aaaaaaaaaa".data).link 4) ∧
    ((Row.new "aaaaaaaaaa".data).link 4).text.length = 10 ∧
    (c3_d2.map (fun y => y.1)) = some (Except.ok Status.None) ∧
    (c3_d3.map (fun y => y.1)) = some (Except.ok Status.None) ∧
    (c3_d3.map (fun y => y.2.char_ptr)) = some c3_d1.char_ptr ∧
    (c3_d3.map (fun y => (y.2.cursor, y.2.offset))) = some (⟨1, 0⟩, ⟨4, 0⟩) ∧
    ¬((⟨1, 0⟩ : Loc), (⟨4, 0⟩ : Loc)) = (c3_d1.cursor, c3_d1.offset) :=
  ⟨rfl, rfl, rfl, rfl, rfl, rfl, rfl, by decide⟩

theorem moveLeftSteps_spec (n : Nat) (c o : Loc) (h : n ≤ c.x + o.x) :
    ∃ c2 o2, moveLeftSteps n c o = some (c2, o2) ∧
      c2.x + o2.x + n = c.x + o.x ∧ c2.y = c.y ∧ o2.y = o.y := by
  induction n generalizing c o with
  | zero => exact ⟨c, o, rfl, by omega, rfl, rfl⟩
  | succ m ih =>
    unfold moveLeftSteps
    by_cases hc : c.x = 0
    · rw [if_pos hc, if_neg (by omega)]
      obtain ⟨c2, o2, h1, h2, h3, h4⟩ := ih c { o with x := o.x - 1 } (by simp; omega)
      refine ⟨c2, o2, h1, ?_, h3, h4⟩
      simp at h2
      omega
    · rw [if_neg hc]
      obtain ⟨c2, o2, h1, h2, h3, h4⟩ := ih { c with x := c.x - 1 } o (by simp; omega)
      refine ⟨c2, o2, h1, ?_, h3, h4⟩
      simp at h2
      omega

theorem moveRightSteps_spec (n w : Nat) (c o : Loc) (hw : 0 < w) :
    ∃ c2 o2, moveRightSteps n w c o = some (c2, o2) ∧
      c2.x + o2.x = c.x + o.x + n ∧ c2.y = c.y ∧ o2.y = o.y := by
  induction n generalizing c o with
  | zero => exact ⟨c, o, rfl, by omega, rfl, rfl⟩
  | succ m ih =>
    unfold moveRightSteps
    rw [if_neg (by omega)]
    by_cases hc : c.x = w - 1
    · rw [if_pos hc]
      obtain ⟨c2, o2, h1, h2, h3, h4⟩ := ih c { o with x := o.x + 1 }
      refine ⟨c2, o2, h1, ?_, h3, h4⟩
      simp at h2
      omega
    · rw [if_neg hc]
      obtain ⟨c2, o2, h1, h2, h3, h4⟩ := ih { c with x := c.x + 1 } o
      refine ⟨c2, o2, h1, ?_, h3, h4⟩
      simp at h2
      omega

/-- C3 (amended): from any interior position of the current row —
    provided the state is coherent (`cursor.x + offset.x` is the display
    column of `char_ptr`, the row is well-formed with the document's tab
    width, and the viewport has positive width) — `move_left` followed by
    `move_right` restores the original `char_ptr` and the original
    absolute display column `cursor.x + offset.x`, leaving the vertical
    coordinates unchanged; the exact split of that column between `cursor`
    and `offset` is not always restored. -/
theorem c3_move_left_right_amended (d : Document) (r : Row)
    (hrow : d.current_row = Except.ok r)
    (hinv : r.Inv)
    (htab : r.tab_width = d.info.tab_width)
    (hx : d.cursor.x + d.offset.x = r.indices.getD d.char_ptr 0)
    (hlo : 0 < d.char_ptr) (hhi : d.char_ptr < r.text.length)
    (hw : 0 < d.size.w) :
    ∃ d2 d3,
      d.move_left = some (Except.ok Status.None, d2) ∧
      d2.move_right = some (Except.ok Status.None, d3) ∧
      d3.char_ptr = d.char_ptr ∧
      d3.cursor.x + d3.offset.x = d.cursor.x + d.offset.x ∧
      d3.cursor.y = d.cursor.y ∧ d3.offset.y = d.offset.y := by
  have hwf := wf_of_inv hinv
  have hp1 : d.char_ptr - 1 < r.text.length := by omega
  have hsum : r.indices.getD d.char_ptr 0 = sumw r.tab_width (r.text.take d.char_ptr) :=
    WF_getD hwf (Nat.le_of_lt hhi)
  have hsplit : sumw r.tab_width (r.text.take d.char_ptr)
      = sumw r.tab_width (r.text.take (d.char_ptr - 1))
        + width_char (r.text.getD (d.char_ptr - 1) (Char.ofNat 0)) d.info.tab_width := by
    have hstep := sumw_take_succ r.tab_width r.text (d.char_ptr - 1) hp1
    rw [show d.char_ptr - 1 + 1 = d.char_ptr from by omega] at hstep
    rw [hstep, htab]
  have hwle : width_char (r.text.getD (d.char_ptr - 1) (Char.ofNat 0)) d.info.tab_width
      ≤ d.cursor.x + d.offset.x := by omega
  have htn : ((d.char_ptr : Int) + (-1)).toNat = d.char_ptr - 1 := by omega
  have hgw : d.get_width (-1)
      = some (Except.ok (width_char (r.text.getD (d.char_ptr - 1) (Char.ofNat 0))
          d.info.tab_width)) := by
    unfold Document.get_width
    rw [hrow]
    dsimp only
    rw [if_pos ⟨by omega, by rw [htn]; omega⟩, htn]
  obtain ⟨c2, o2, hs1, hsum2, hy2c, hy2o⟩ :=
    moveLeftSteps_spec (width_char (r.text.getD (d.char_ptr - 1) (Char.ofNat 0))
      d.info.tab_width) d.cursor d.offset hwle
  refine ⟨{ d with cursor := c2, offset := o2, char_ptr := d.char_ptr - 1 }, ?_⟩
  have hrow2 : ({ d with cursor := c2, offset := o2, char_ptr := d.char_ptr - 1 }
      : Document).current_row = Except.ok r := by
    unfold Document.current_row Document.row Document.raw_loc at hrow ⊢
    simp only [hy2c, hy2o]
    exact hrow
  have htn2 : (((d.char_ptr - 1 : Nat) : Int) + 0).toNat = d.char_ptr - 1 := by omega
  have hgw2 : ({ d with cursor := c2, offset := o2, char_ptr := d.char_ptr - 1 }
      : Document).get_width 0
      = some (Except.ok (width_char (r.text.getD (d.char_ptr - 1) (Char.ofNat 0))
          d.info.tab_width)) := by
    unfold Document.get_width
    rw [hrow2]
    dsimp only
    rw [if_pos ⟨by omega, by rw [htn2]; omega⟩, htn2]
  obtain ⟨c3, o3, hs3, hsum3, hy3c, hy3o⟩ :=
    moveRightSteps_spec (width_char (r.text.getD (d.char_ptr - 1) (Char.ofNat 0))
      d.info.tab_width) d.size.w c2 o2 hw
  refine ⟨{ d with cursor := c3, offset := o3, char_ptr := d.char_ptr - 1 + 1 }, ?_, ?_, ?_, ?_, ?_, ?_⟩
  · unfold Document.move_left
    rw [if_neg (by omega), hgw]
    dsimp only
    rw [hs1]
  · unfold Document.move_right
    rw [hrow2]
    dsimp only
    rw [if_neg (by show d.char_ptr - 1 ≠ r.text.length; omega), hgw2]
    dsimp only
    rw [hs3]
  · show d.char_ptr - 1 + 1 = d.char_ptr
    omega
  · show c3.x + o3.x = d.cursor.x + d.offset.x
    omega
  · show c3.y = d.cursor.y
    rw [hy3c, hy2c]
  · show o3.y = d.offset.y
    rw [hy3o, hy2o]

/-- C3 (amended) witness: the interior state `c3_d1` of the ten-`a`
    document. -/
theorem c3_move_left_right_amended_witness :
    ∃ d2 d3,
      c3_d1.move_left = some (Except.ok Status.None, d2) ∧
      d2.move_right = some (Except.ok Status.None, d3) ∧
      d3.char_ptr = c3_d1.char_ptr ∧
      d3.cursor.x + d3.offset.x = c3_d1.cursor.x + c3_d1.offset.x ∧
      d3.cursor.y = c3_d1.cursor.y ∧ d3.offset.y = c3_d1.offset.y :=
  c3_move_left_right_amended c3_d1 ((Row.new "aaaaaaaaaa".data).link 4)
    rfl (by decide) (by decide) (by decide) (by decide) (by decide) (by decide)

/-! ## Claim C6 -/

theorem raw_loc_x (d : Document) : d.raw_loc.x = d.cursor.x + d.offset.x := rfl

theorem raw_loc_y (d : Document) : d.raw_loc.y = d.cursor.y + d.offset.y := rfl

/-- C6 counterexample: a one-row document sitting on its last row (row 0
    of 1): `move_down` does not return `EndOfDocument` without moving —
    it moves to the position one past the last row and returns
    `Status::None`. -/
theorem c6_move_down_counterexample :
    c6_d0.rows.length = 1 ∧ c6_d0.raw_loc.y = 0 ∧
    (c6_d0.move_down.map (fun y => y.1)) = some (Except.ok Status.None) ∧
    (c6_d0.move_down.map (fun y => y.2.raw_loc.y)) = some 1 :=
  ⟨rfl, rfl, rfl, rfl⟩

theorem current_row_ok {d : Document} (h : d.raw_loc.y < d.rows.length) :
    d.current_row = Except.ok (d.rows.getD d.raw_loc.y (Row.new [])) := by
  unfold Document.current_row Document.row
  rw [List.getElem?_eq_getElem h, List.getD_eq_getElem _ _ h]

theorem current_row_err {d : Document} (h : d.rows.length ≤ d.raw_loc.y) :
    d.current_row = Except.error Error.OutOfRange := by
  unfold Document.current_row Document.row
  rw [List.getElem?_eq_none h]

theorem getD_mem_of_lt {α : Type} (l : List α) (i : Nat) (d0 : α) (h : i < l.length) :
    l.getD i d0 ∈ l := by
  rw [List.getD_eq_getElem _ _ h]
  exact List.getElem_mem h

theorem snapBack_spec (indices : List Nat) (start : Nat) (h0 : (0 : Nat) ∈ indices) :
    ∃ ptr, snapBack indices start = some ptr ∧ ptr ≤ start ∧ ptr ∈ indices := by
  induction start with
  | zero =>
    refine ⟨0, ?_, Nat.le_refl 0, h0⟩
    unfold snapBack
    rw [if_pos h0]
  | succ k ih =>
    unfold snapBack
    by_cases hm : (k + 1) ∈ indices
    · rw [if_pos hm]
      exact ⟨k + 1, rfl, Nat.le_refl _, hm⟩
    · rw [if_neg hm]
      obtain ⟨ptr, h1, h2, h3⟩ := ih
      exact ⟨ptr, h1, by omega, h3⟩

theorem snap_grapheme_spec (d : Document) (r : Row)
    (hrow : d.current_row = Except.ok r) (h0 : (0 : Nat) ∈ r.indices) :
    ∃ c2 o2, d.snap_grapheme = some (Except.ok (), { d with cursor := c2, offset := o2 }) ∧
      c2.y = d.cursor.y ∧ o2.y = d.offset.y ∧ c2.x + o2.x ∈ r.indices ∧
      c2.x + o2.x ≤ d.cursor.x + d.offset.x := by
  unfold Document.snap_grapheme
  rw [hrow]
  dsimp only
  obtain ⟨ptr, hsb, hle, hmem⟩ := snapBack_spec r.indices d.raw_loc.x h0
  rw [hsb]
  dsimp only
  obtain ⟨c2, o2, hml, hsum, hyc, hyo⟩ :=
    moveLeftSteps_spec (d.raw_loc.x - ptr) d.cursor d.offset
      (by rw [raw_loc_x]; omega)
  rw [hml]
  have hptr : c2.x + o2.x = ptr := by
    rw [raw_loc_x] at hsum hle
    omega
  refine ⟨c2, o2, rfl, hyc, hyo, ?_, ?_⟩
  · rw [hptr]
    exact hmem
  · rw [raw_loc_x] at hle
    omega

theorem up_step (d : Document) (hne : d.raw_loc.y ≠ 0) :
    ∃ c o,
      (if d.cursor.y = 0 then { d with offset := { d.offset with y := d.offset.y - 1 } }
        else { d with cursor := { d.cursor with y := d.cursor.y - 1 } })
        = { d with cursor := c, offset := o }
      ∧ c.y + o.y + 1 = d.cursor.y + d.offset.y ∧ c.x = d.cursor.x ∧ o.x = d.offset.x := by
  rw [raw_loc_y] at hne
  by_cases hc : d.cursor.y = 0
  · rw [if_pos hc]
    refine ⟨d.cursor, { d.offset with y := d.offset.y - 1 }, rfl, ?_, rfl, rfl⟩
    show d.cursor.y + (d.offset.y - 1) + 1 = d.cursor.y + d.offset.y
    omega
  · rw [if_neg hc]
    refine ⟨{ d.cursor with y := d.cursor.y - 1 }, d.offset, rfl, ?_, rfl, rfl⟩
    show d.cursor.y - 1 + d.offset.y + 1 = d.cursor.y + d.offset.y
    omega

theorem down_step (d : Document) :
    ∃ c o,
      (if d.cursor.y = d.size.h - 1 then { d with offset := { d.offset with y := d.offset.y + 1 } }
        else { d with cursor := { d.cursor with y := d.cursor.y + 1 } })
        = { d with cursor := c, offset := o }
      ∧ c.y + o.y = d.cursor.y + d.offset.y + 1 ∧ c.x = d.cursor.x ∧ o.x = d.offset.x := by
  by_cases hc : d.cursor.y = d.size.h - 1
  · rw [if_pos hc]
    refine ⟨d.cursor, { d.offset with y := d.offset.y + 1 }, rfl, ?_, rfl, rfl⟩
    show d.cursor.y + (d.offset.y + 1) = d.cursor.y + d.offset.y + 1
    omega
  · rw [if_neg hc]
    refine ⟨{ d.cursor with y := d.cursor.y + 1 }, d.offset, rfl, ?_, rfl, rfl⟩
    show d.cursor.y + 1 + d.offset.y = d.cursor.y + d.offset.y + 1
    omega

/-- C6 (amended): `move_up` returns `StartOfDocument` without moving at
    absolute row 0, and `move_down` returns `EndOfDocument` without
    moving when the absolute row equals `rows.len()` — one past the last
    row, not at the last row itself.  Otherwise each moves the vertical
    position by exactly one row; `move_up` snaps the horizontal position
    to an index-table boundary of the new row and recomputes `char_ptr`
    from it, and `move_down` does the same while it lands on a real row,
    clamping `cursor.x`, `offset.x` and `char_ptr` to 0 when it moves to
    the position just past the last row. -/
theorem c6_move_up_down_amended (d : Document)
    (hh : 0 < d.size.h)
    (hrows : ∀ r ∈ d.rows, (0 : Nat) ∈ r.indices)
    (hy : d.raw_loc.y ≤ d.rows.length) :
    (d.raw_loc.y = 0 → d.move_up = some (Except.ok Status.StartOfDocument, d)) ∧
    (d.raw_loc.y = d.rows.length → d.move_down = some (Except.ok Status.EndOfDocument, d)) ∧
    (d.raw_loc.y ≠ 0 →
      ∃ d2, d.move_up = some (Except.ok Status.None, d2) ∧
        d2.raw_loc.y + 1 = d.raw_loc.y ∧
        ∃ r, d2.current_row = Except.ok r ∧ d2.raw_loc.x ∈ r.indices ∧
          d2.char_ptr = r.get_char_ptr d2.raw_loc.x) ∧
    (d.raw_loc.y ≠ d.rows.length →
      ∃ d2, d.move_down = some (Except.ok Status.None, d2) ∧
        d2.raw_loc.y = d.raw_loc.y + 1 ∧
        ((∃ r, d2.current_row = Except.ok r ∧ d2.raw_loc.x ∈ r.indices ∧
            d2.char_ptr = r.get_char_ptr d2.raw_loc.x) ∨
          (d2.raw_loc.y = d.rows.length ∧ d2.cursor.x = 0 ∧ d2.offset.x = 0 ∧
            d2.char_ptr = 0))) := by
  refine ⟨?_, ?_, ?_, ?_⟩
  · intro h0
    unfold Document.move_up
    rw [if_pos h0]
  · intro hend
    unfold Document.move_down
    rw [if_pos hend]
  · intro hne
    unfold Document.move_up
    rw [if_neg hne]
    obtain ⟨c1, o1, hif, hy1, hx1c, hx1o⟩ := up_step d hne
    dsimp only
    rw [hif]
    rw [raw_loc_y] at hne hy
    have hy1lt : ({ d with cursor := c1, offset := o1 } : Document).raw_loc.y
        < ({ d with cursor := c1, offset := o1 } : Document).rows.length := by
      rw [raw_loc_y]
      show c1.y + o1.y < d.rows.length
      omega
    have hrow1 := current_row_ok hy1lt
    have hmem0 : (0 : Nat) ∈ (({ d with cursor := c1, offset := o1 } : Document).rows.getD
        ({ d with cursor := c1, offset := o1 } : Document).raw_loc.y (Row.new [])).indices :=
      hrows _ (getD_mem_of_lt _ _ _ hy1lt)
    obtain ⟨c2, o2, hsnap, hyc2, hyo2, hmem2, hle2⟩ :=
      snap_grapheme_spec { d with cursor := c1, offset := o1 } _ hrow1 hmem0
    rw [hsnap]
    dsimp only
    have hyy2 : c2.y + o2.y = c1.y + o1.y := by
      have h1 : c2.y = c1.y := hyc2
      have h2 : o2.y = o1.y := hyo2
      omega
    have hy2lt : ({ d with cursor := c2, offset := o2 } : Document).raw_loc.y
        < ({ d with cursor := c2, offset := o2 } : Document).rows.length := by
      rw [raw_loc_y]
      show c2.y + o2.y < d.rows.length
      omega
    have hrow2 := current_row_ok hy2lt
    have hsame : ({ d with cursor := c2, offset := o2 } : Document).rows.getD
          ({ d with cursor := c2, offset := o2 } : Document).raw_loc.y (Row.new [])
        = ({ d with cursor := c1, offset := o1 } : Document).rows.getD
          ({ d with cursor := c1, offset := o1 } : Document).raw_loc.y (Row.new []) := by
      show d.rows.getD (c2.y + o2.y) (Row.new []) = d.rows.getD (c1.y + o1.y) (Row.new [])
      rw [hyy2]
    rw [hsame] at hrow2
    rw [hrow2]
    dsimp only
    refine ⟨_, rfl, ?_, _, ?_, ?_, rfl⟩
    · rw [raw_loc_y]
      show c2.y + o2.y + 1 = d.cursor.y + d.offset.y
      omega
    · exact hrow2
    · show c2.x + o2.x ∈ _
      exact hmem2
  · intro hne
    unfold Document.move_down
    rw [if_neg hne, if_neg (by omega)]
    obtain ⟨c1, o1, hif, hy1, hx1c, hx1o⟩ := down_step d
    dsimp only
    rw [hif]
    rw [raw_loc_y] at hne hy
    rcases Nat.lt_or_ge (c1.y + o1.y) d.rows.length with hlt | hge
    · have hy1lt : ({ d with cursor := c1, offset := o1 } : Document).raw_loc.y
          < ({ d with cursor := c1, offset := o1 } : Document).rows.length := by
        rw [raw_loc_y]
        exact hlt
      have hrow1 := current_row_ok hy1lt
      have hmem0 : (0 : Nat) ∈ (({ d with cursor := c1, offset := o1 } : Document).rows.getD
          ({ d with cursor := c1, offset := o1 } : Document).raw_loc.y (Row.new [])).indices :=
        hrows _ (getD_mem_of_lt _ _ _ hy1lt)
      obtain ⟨c2, o2, hsnap, hyc2, hyo2, hmem2, hle2⟩ :=
        snap_grapheme_spec { d with cursor := c1, offset := o1 } _ hrow1 hmem0
      rw [hsnap]
      dsimp only
      have hyy2 : c2.y + o2.y = c1.y + o1.y := by
        have h1 : c2.y = c1.y := hyc2
        have h2 : o2.y = o1.y := hyo2
        omega
      have hy2lt : ({ d with cursor := c2, offset := o2 } : Document).raw_loc.y
          < ({ d with cursor := c2, offset := o2 } : Document).rows.length := by
        rw [raw_loc_y]
        show c2.y + o2.y < d.rows.length
        omega
      have hrow2 := current_row_ok hy2lt
      have hsame : ({ d with cursor := c2, offset := o2 } : Document).rows.getD
            ({ d with cursor := c2, offset := o2 } : Document).raw_loc.y (Row.new [])
          = ({ d with cursor := c1, offset := o1 } : Document).rows.getD
            ({ d with cursor := c1, offset := o1 } : Document).raw_loc.y (Row.new []) := by
        show d.rows.getD (c2.y + o2.y) (Row.new []) = d.rows.getD (c1.y + o1.y) (Row.new [])
        rw [hyy2]
      rw [hsame] at hrow2
      rw [hrow2]
      dsimp only
      refine ⟨_, rfl, ?_, Or.inl ⟨_, ?_, ?_, rfl⟩⟩
      · rw [raw_loc_y, raw_loc_y]
        show c2.y + o2.y = d.cursor.y + d.offset.y + 1
        omega
      · exact hrow2
      · show c2.x + o2.x ∈ _
        exact hmem2
    · have heq : c1.y + o1.y = d.rows.length := by omega
      have hrow1e : ({ d with cursor := c1, offset := o1 } : Document).current_row
          = Except.error Error.OutOfRange := by
        apply current_row_err
        rw [raw_loc_y]
        show d.rows.length ≤ c1.y + o1.y
        omega
      have hsnap : ({ d with cursor := c1, offset := o1 } : Document).snap_grapheme
          = some (Except.error Error.OutOfRange, { d with cursor := c1, offset := o1 }) := by
        unfold Document.snap_grapheme
        rw [hrow1e]
      rw [hsnap]
      dsimp only
      rw [hrow1e]
      dsimp only
      refine ⟨_, rfl, ?_, Or.inr ⟨?_, rfl, rfl, rfl⟩⟩
      · rw [raw_loc_y, raw_loc_y]
        show c1.y + o1.y = d.cursor.y + d.offset.y + 1
        omega
      · rw [raw_loc_y]
        show c1.y + o1.y = d.rows.length
        omega

/-- C6 (amended) witness: the fresh two-row document sits at row 0, so
    `move_up` reports `StartOfDocument` and does not move. -/
theorem c6_move_up_down_amended_witness :
    c6_d1.move_up = some (Except.ok Status.StartOfDocument, c6_d1) :=
  (c6_move_up_down_amended c6_d1 (by decide) (by decide) (by decide)).1 rfl

end Kaolinite
